import Mathlib

/-!
Verification development for the SmartHub electric-usage pipeline
(`ElectricUsagewithPrices.py`, `ElectricRawJSON.py`, `ElectricRawDataInfluxDB.py`).

The core under study is the retention-windowed merge store of
`ElectricUsagewithPrices.py`:
`convert_timestamp` / `parse_datetime` (timestamp formatting and parsing),
`process_data` (normalisation and price annotation), and
`save_to_json` (merge by timestamp key, prune by retention cutoff, write).

Instants are modelled as integer epoch seconds (UTC); epoch milliseconds as
integers.  Python `/` on these values is exact floor division in the ranges
considered, so it is modelled by `Int` division (which rounds toward negative
infinity for the positive divisors used here).  Usage and price values are
modelled as rationals.
-/

set_option maxRecDepth 4000

namespace SmartHub

/-- A usage record as built by `process_data` and stored in the JSON snapshot:
the dict `{'Start Time': …, 'Total': …, 'Price': …}`. -/
structure Record where
  startTime : String
  total : ℚ
  price : ℚ
  deriving DecidableEq, Repr

/-! ## Calendar arithmetic (the proleptic Gregorian calendar used by
`datetime.fromtimestamp`/`strftime`/`strptime` with `pytz.utc`) -/

/-- Gregorian leap-year test. -/
def isLeap (y : Nat) : Bool := (y % 4 == 0 && y % 100 != 0) || y % 400 == 0

def daysInYear (y : Nat) : Nat := if isLeap y then 366 else 365

def monthLengths (leap : Bool) : List Nat :=
  [31, if leap then 29 else 28, 31, 30, 31, 30, 31, 31, 30, 31, 30, 31]

def daysInMonth (y m : Nat) : Nat := (monthLengths (isLeap y)).getD (m - 1) 0

/-- Days from 0001-01-01 to the first day of year `y` (proleptic Gregorian). -/
def daysBeforeYear : Nat → Nat
  | 0 => 0
  | 1 => 0
  | y + 2 => daysBeforeYear (y + 1) + daysInYear (y + 1)

def daysBeforeMonth (leap : Bool) (m : Nat) : Nat := ((monthLengths leap).take (m - 1)).sum

/-- 0-based rata-die day number of the civil date `y-m-d`. -/
def daysFromCivil (y m d : Nat) : Nat :=
  daysBeforeYear y + daysBeforeMonth (isLeap y) m + (d - 1)

/-- 1970-01-01 is day 719162 counted from 0001-01-01. -/
def epochShift : Nat := 719162

def yearDoyAux : Nat → Nat → Nat → Nat × Nat
  | 0, y, n => (y, n)
  | fuel + 1, y, n =>
    if n < daysInYear y then (y, n) else yearDoyAux fuel (y + 1) (n - daysInYear y)

/-- Year and 0-based day-of-year of a rata-die day number. -/
def yearDoy (n : Nat) : Nat × Nat := yearDoyAux 10000 1 n

def monthFromDoy : List Nat → Nat → Nat → Nat × Nat
  | [], m, doy => (m, doy + 1)
  | len :: rest, m, doy =>
    if doy < len then (m, doy + 1) else monthFromDoy rest (m + 1) (doy - len)

/-- Civil date `(y, m, d)` of a rata-die day number. -/
def civilFromDays (n : Nat) : Nat × Nat × Nat :=
  let p := yearDoy n
  let q := monthFromDoy (monthLengths (isLeap p.1)) 1 p.2
  (p.1, q.1, q.2)

def digitChar (n : Nat) : Char := Char.ofNat (48 + n % 10)

def pad2 (n : Nat) : List Char := [digitChar (n / 10), digitChar n]

def pad4 (n : Nat) : List Char :=
  [digitChar (n / 1000), digitChar (n / 100), digitChar (n / 10), digitChar n]

/-- `convert_timestamp` (ElectricUsagewithPrices.py lines 105-108): epoch
milliseconds to a `'%Y-%m-%d %H:%M:%S'` UTC string.  The float division
`timestamp_ms / 1000` followed by `fromtimestamp`/`strftime` truncation to
seconds agrees with exact floor division for the millisecond ranges that
`datetime` accepts, so it is modelled by integer floor division; `strftime`
fields are zero-padded as documented. -/
def convert_timestamp (ms : Int) : String :=
  let s := ms / 1000
  let days := s / 86400
  let sod := (s % 86400).toNat
  let c := civilFromDays (days + (epochShift : Int)).toNat
  String.mk (pad4 c.1 ++ '-' :: pad2 c.2.1 ++ '-' :: pad2 c.2.2 ++ ' ' ::
    pad2 (sod / 3600) ++ ':' :: pad2 (sod % 3600 / 60) ++ ':' :: pad2 (sod % 60))

def c2d (c : Char) : Nat := c.toNat - 48

/-- `parse_datetime` (lines 156-160): parse `'%Y-%m-%d %H:%M:%S'` to a UTC
instant, modelled as epoch seconds; `none` when the string does not match
(Python catches `ValueError` and returns `None`).  The canonical zero-padded
form produced by `strftime` is accepted; the field ranges `datetime` enforces
(month 1-12, day fitting the month, hour < 24, minute and second < 60,
year ≥ 1) are checked. -/
def parseChars : List Char → Option Int
  | [y1, y2, y3, y4, '-', m1, m2, '-', d1, d2, ' ', h1, h2, ':', n1, n2, ':', s1, s2] =>
    if y1.isDigit ∧ y2.isDigit ∧ y3.isDigit ∧ y4.isDigit ∧ m1.isDigit ∧ m2.isDigit ∧
        d1.isDigit ∧ d2.isDigit ∧ h1.isDigit ∧ h2.isDigit ∧ n1.isDigit ∧ n2.isDigit ∧
        s1.isDigit ∧ s2.isDigit then
      let y := c2d y1 * 1000 + c2d y2 * 100 + c2d y3 * 10 + c2d y4
      let mo := c2d m1 * 10 + c2d m2
      let da := c2d d1 * 10 + c2d d2
      let ho := c2d h1 * 10 + c2d h2
      let mi := c2d n1 * 10 + c2d n2
      let se := c2d s1 * 10 + c2d s2
      if 1 ≤ y ∧ 1 ≤ mo ∧ mo ≤ 12 ∧ 1 ≤ da ∧ da ≤ daysInMonth y mo ∧
          ho ≤ 23 ∧ mi ≤ 59 ∧ se ≤ 59 then
        some (((daysFromCivil y mo da : Int) - (epochShift : Int)) * 86400 +
          ((ho : Int) * 3600 + (mi : Int) * 60 + (se : Int)))
      else none
    else none
  | _ => none

/-- `parse_datetime` (lines 156-160), as a function of the string. -/
def parse_datetime (str : String) : Option Int := parseChars str.data

/-! ## Normalisation and price annotation (`process_data`, lines 110-134) -/

/-- One interval read: `read.get('interval', {}).get('start', 0)` and
`read.get('metrics', {}).get('total', 0.0) or 0.0`; both may be absent or
null upstream. -/
structure RawRead where
  start : Option Int
  total : Option ℚ

structure RawReading where
  reads : List RawRead

structure RawItem where
  readings : List RawReading

def processRead (pricePerKw : ℚ) (rd : RawRead) : Record :=
  { startTime := convert_timestamp (rd.start.getD 0)
    total := rd.total.getD 0
    price := rd.total.getD 0 * pricePerKw }

def allReads (data : List RawItem) : List RawRead :=
  data.flatMap fun item => item.readings.flatMap fun reading => reading.reads

/-- `process_data` (lines 110-134): one output row per (item, reading, read)
triple in input order; missing `start` defaults to `0`, missing or null
`total` to `0.0`; `price = total * price_per_kw` with no validation of the
unit price. -/
def process_data (data : List RawItem) (pricePerKw : ℚ) : List Record :=
  (allReads data).map (processRead pricePerKw)

/-! ## The retention-windowed merge store (`save_to_json`, lines 136-154) -/

/-- Python dict assignment `d[entry['Start Time']] = entry` on an
insertion-ordered dict: overwrite in place when the key exists, else append. -/
def upsert : List Record → Record → List Record
  | [], r => [r]
  | x :: xs, r => if x.startTime == r.startTime then r :: xs else x :: upsert xs r

/-- Line 146: `{entry['Start Time']: entry for entry in existing_data}`. -/
def toDict (l : List Record) : List Record := l.foldl upsert []

/-- Lines 146-149: build the dict from the existing snapshot, then overwrite
with each incoming entry in order. -/
def mergeDict (existing incoming : List Record) : List Record :=
  incoming.foldl upsert (toDict existing)

/-- Line 151: `[e for e in d.values() if parse_datetime(e['Start Time']) >= cutoff]`.
When `parse_datetime` returns `None`, the comparison `None >= cutoff` raises
`TypeError` in Python and `save_to_json` aborts; `none` models that abort. -/
def pruneFilter (cutoff : Int) : List Record → Option (List Record)
  | [] => some []
  | r :: rs =>
    match parse_datetime r.startTime with
    | none => none
    | some t =>
      match pruneFilter cutoff rs with
      | none => none
      | some l => some (if cutoff ≤ t then r :: l else l)

/-- The prior snapshot file: present with parsed contents, absent, or not
valid JSON. -/
inductive SnapshotFile where
  | missing
  | corrupt
  | good (entries : List Record)

/-- Lines 137-141: `FileNotFoundError` and `json.JSONDecodeError` both degrade
to an empty existing list. -/
def loadSnapshot : SnapshotFile → List Record
  | .good l => l
  | _ => []

/-- `save_to_json` (lines 136-154): load prior state, merge by timestamp key
(last write wins), filter by the retention cutoff, write the result.  Returns
the written list, or `none` for the `TypeError` abort on an unparseable
timestamp.  `now` is the value of `datetime.datetime.now(pytz.utc)` modelled
at second precision; the cutoff is `now` minus `retain_days` whole days. -/
def save_to_json (file : SnapshotFile) (data : List Record) (now : Int)
    (retainDays : Nat) : Option (List Record) :=
  pruneFilter (now - (retainDays : Int) * 86400) (mergeDict (loadSnapshot file) data)

/-! ## Specification-side helpers -/

/-- First record with the given `'Start Time'` key.  On a list with unique
keys (any dict built by `upsert`) this is the dict lookup. -/
def lookupKey : List Record → String → Option Record
  | [], _ => none
  | x :: xs, k => if x.startTime == k then some x else lookupKey xs k

/-- Last record with the given `'Start Time'` key, i.e. the one a
last-write-wins merge keeps. -/
def lastMatch : List Record → String → Option Record
  | [], _ => none
  | x :: xs, k =>
    match lastMatch xs k with
    | some z => some z
    | none => if x.startTime == k then some x else none

def optOr : Option Record → Option Record → Option Record
  | some x, _ => some x
  | none, b => b

/-- Boolean form of the retention test on one record. -/
def keepB (cutoff : Int) (r : Record) : Bool :=
  match parse_datetime r.startTime with
  | some t => decide (cutoff ≤ t)
  | none => false

/-- Key sequence of a dict built by insertion: first occurrence fixes the
position. -/
def insKeys : List String → List String → List String
  | [], ks => ks
  | k :: rest, ks => insKeys rest (if k ∈ ks then ks else ks ++ [k])

/-- Records a fold of `upsert` appends beyond the accumulator: one per first
occurrence of a fresh key, carrying the last record with that key. -/
def newRecs : List Record → List String → List Record
  | [], _ => []
  | x :: xs, ks =>
    if x.startTime ∈ ks then newRecs xs ks
    else (lastMatch xs x.startTime).getD x :: newRecs xs (ks ++ [x.startTime])

def tsOf (r : Record) : Option Int := parse_datetime r.startTime

/-- Ascending by parsed timestamp. -/
def sortedByTs (l : List Record) : Prop :=
  List.Chain' (fun a b => ∃ ta tb, tsOf a = some ta ∧ tsOf b = some tb ∧ ta ≤ tb) l

/-! ## Calendar lemmas -/

lemma daysInYear_pos (y : Nat) : 0 < daysInYear y := by
  unfold daysInYear; split <;> norm_num

lemma daysInYear_le (y : Nat) : daysInYear y ≤ 366 := by
  unfold daysInYear; split <;> norm_num

lemma daysBeforeYear_succ (y : Nat) (h : 1 ≤ y) :
    daysBeforeYear (y + 1) = daysBeforeYear y + daysInYear y := by
  match y, h with
  | n + 1, _ => rfl

lemma isLeap_iff (y : Nat) : isLeap y = true ↔ (4 ∣ y ∧ ¬(100 ∣ y)) ∨ 400 ∣ y := by
  simp [isLeap, Bool.or_eq_true, Bool.and_eq_true, beq_iff_eq, bne_iff_ne,
    Nat.dvd_iff_mod_eq_zero]

lemma daysInYear_of_leap {y : Nat} (h : (4 ∣ y ∧ ¬(100 ∣ y)) ∨ 400 ∣ y) :
    daysInYear y = 366 := by
  unfold daysInYear
  rw [if_pos ((isLeap_iff y).mpr h)]

lemma daysInYear_of_nonleap {y : Nat} (h : ¬((4 ∣ y ∧ ¬(100 ∣ y)) ∨ 400 ∣ y)) :
    daysInYear y = 365 := by
  unfold daysInYear
  rw [if_neg fun hc => h ((isLeap_iff y).mp hc)]

lemma daysBeforeYear_closed (y : Nat) :
    daysBeforeYear (y + 1) + y / 100 = 365 * y + y / 4 + y / 400 := by
  induction y with
  | zero => rfl
  | succ n ih =>
    rw [daysBeforeYear_succ (n + 1) (by omega)]
    have h4 := Nat.succ_div n 4
    have h100 := Nat.succ_div n 100
    have h400 := Nat.succ_div n 400
    have h100to4 : (100 : Nat) ∣ n + 1 → 4 ∣ n + 1 := fun hd =>
      dvd_trans (by norm_num) hd
    have h400to100 : (400 : Nat) ∣ n + 1 → 100 ∣ n + 1 := fun hd =>
      dvd_trans (by norm_num) hd
    by_cases a4 : 4 ∣ n + 1 <;> by_cases a100 : 100 ∣ n + 1 <;> by_cases a400 : 400 ∣ n + 1 <;>
      simp only [a4, a100, a400, if_true, if_false, if_pos, if_neg,
        not_true_eq_false, not_false_eq_true] at h4 h100 h400
    · rw [daysInYear_of_leap (Or.inr a400)]; omega
    · rw [daysInYear_of_nonleap ?_]
      · omega
      · rintro (⟨-, hn⟩ | hn)
        · exact hn a100
        · exact a400 hn
    · exact absurd (h400to100 a400) a100
    · rw [daysInYear_of_leap (Or.inl ⟨a4, a100⟩)]; omega
    · exact absurd (h100to4 a100) a4
    · exact absurd (h100to4 a100) a4
    · exact absurd (h100to4 (h400to100 a400)) a4
    · rw [daysInYear_of_nonleap ?_]
      · omega
      · rintro (⟨h, -⟩ | hn)
        · exact a4 h
        · exact a400 hn

lemma daysBeforeYear_10000 : daysBeforeYear 10000 = 3652059 := by
  have h := daysBeforeYear_closed 9999
  norm_num at h
  omega

lemma daysBeforeYear_10001 : daysBeforeYear 10001 = 3652425 := by
  have h := daysBeforeYear_closed 10000
  norm_num at h
  omega

lemma daysBeforeYear_mono {a b : Nat} (h : a ≤ b) : daysBeforeYear a ≤ daysBeforeYear b := by
  induction b with
  | zero =>
    have ha : a = 0 := by omega
    subst ha; exact le_refl _
  | succ n ih =>
    rcases Nat.lt_or_ge a (n + 1) with hlt | hge
    · have hn : daysBeforeYear n ≤ daysBeforeYear (n + 1) := by
        match n with
        | 0 => exact le_refl _
        | m + 1 => rw [daysBeforeYear_succ (m + 1) (by omega)]; omega
      exact le_trans (ih (by omega)) hn
    · have ha : a = n + 1 := by omega
      subst ha; exact le_refl _

lemma yearDoyAux_spec : ∀ (fuel y n : Nat), 1 ≤ y →
    daysBeforeYear y + n < daysBeforeYear (y + fuel) →
    1 ≤ (yearDoyAux fuel y n).1 ∧ y ≤ (yearDoyAux fuel y n).1 ∧
      daysBeforeYear (yearDoyAux fuel y n).1 + (yearDoyAux fuel y n).2 =
        daysBeforeYear y + n ∧
      (yearDoyAux fuel y n).2 < daysInYear (yearDoyAux fuel y n).1 := by
  intro fuel
  induction fuel with
  | zero =>
    intro y n _ habs
    rw [Nat.add_zero] at habs
    omega
  | succ f ih =>
    intro y n hy hbound
    unfold yearDoyAux
    by_cases hlt : n < daysInYear y
    · rw [if_pos hlt]
      exact ⟨hy, le_refl y, rfl, hlt⟩
    · rw [if_neg hlt]
      push_neg at hlt
      have hsucc : daysBeforeYear (y + 1) = daysBeforeYear y + daysInYear y :=
        daysBeforeYear_succ y hy
      have harg : daysBeforeYear (y + 1) + (n - daysInYear y) <
          daysBeforeYear (y + 1 + f) := by
        have : y + 1 + f = y + (f + 1) := by omega
        rw [this, hsucc]
        omega
      have h := ih (y + 1) (n - daysInYear y) (by omega) harg
      refine ⟨h.1, by omega, ?_, h.2.2.2⟩
      rw [h.2.2.1, hsucc]
      omega

lemma monthFromDoy_spec : ∀ (lens : List Nat) (m0 doy : Nat), doy < lens.sum →
    ∃ i d, monthFromDoy lens m0 doy = (m0 + i, d) ∧ i < lens.length ∧
      1 ≤ d ∧ d ≤ lens.getD i 0 ∧ (lens.take i).sum + (d - 1) = doy := by
  intro lens
  induction lens with
  | nil => intro m0 doy h; simp at h
  | cons len rest ih =>
    intro m0 doy h
    unfold monthFromDoy
    by_cases hlt : doy < len
    · refine ⟨0, doy + 1, ?_, by simp, by omega, by simpa using hlt, by simp⟩
      rw [if_pos hlt]
      simp
    · push_neg at hlt
      have hsum : doy - len < rest.sum := by
        rw [List.sum_cons] at h
        omega
      obtain ⟨i, d, heq, hi, hd1, hd2, hsum2⟩ := ih (m0 + 1) (doy - len) hsum
      refine ⟨i + 1, d, ?_, by simpa using hi, hd1, by simpa using hd2, ?_⟩
      · rw [if_neg (by omega), heq]
        congr 1
        omega
      · have ht : (len :: rest).take (i + 1) = len :: rest.take i := rfl
        rw [ht, List.sum_cons]
        omega

lemma monthLengths_sum (y : Nat) : (monthLengths (isLeap y)).sum = daysInYear y := by
  unfold monthLengths daysInYear
  cases isLeap y <;> simp

lemma monthLengths_le (leap : Bool) : ∀ i, (monthLengths leap).getD i 0 ≤ 31 := by
  intro i
  unfold monthLengths
  cases leap <;>
    match i with
    | 0 | 1 | 2 | 3 | 4 | 5 | 6 | 7 | 8 | 9 | 10 | 11 => simp
    | n + 12 => simp [List.getD]

lemma mk_data (l : List Char) : (String.mk l).data = l := rfl

lemma digitChar_isDigit (n : Nat) : (digitChar n).isDigit = true := by
  have h : n % 10 < 10 := Nat.mod_lt _ (by norm_num)
  unfold digitChar
  have hall : ∀ k, k < 10 → (Char.ofNat (48 + k)).isDigit = true := by decide
  exact hall _ h

lemma c2d_digitChar (n : Nat) : c2d (digitChar n) = n % 10 := by
  have h : n % 10 < 10 := Nat.mod_lt _ (by norm_num)
  unfold digitChar c2d
  have hall : ∀ k, k < 10 → (Char.ofNat (48 + k)).toNat = 48 + k := by decide
  rw [hall _ h]
  omega

lemma pad4_val {n : Nat} (h : n ≤ 9999) :
    c2d (digitChar (n / 1000)) * 1000 + c2d (digitChar (n / 100)) * 100 +
      c2d (digitChar (n / 10)) * 10 + c2d (digitChar n) = n := by
  rw [c2d_digitChar, c2d_digitChar, c2d_digitChar, c2d_digitChar]
  omega

lemma pad2_val {n : Nat} (h : n ≤ 99) :
    c2d (digitChar (n / 10)) * 10 + c2d (digitChar n) = n := by
  rw [c2d_digitChar, c2d_digitChar]
  omega

/-- The formatting/parsing round trip: on any epoch-millisecond value within
`datetime`'s year range 1–9999, parsing the formatted string recovers the
instant truncated to seconds, `floor (t / 1000)`. -/
lemma parse_convert (t : Int) (hlo : -62135596800000 ≤ t) (hhi : t ≤ 253402300799999) :
    parse_datetime (convert_timestamp t) = some (t / 1000) := by
  have hts : 1000 * (t / 1000) + t % 1000 = t := Int.ediv_add_emod t 1000
  have ht0 : 0 ≤ t % 1000 := Int.emod_nonneg t (by norm_num)
  have htl : t % 1000 < 1000 := Int.emod_lt_of_pos t (by norm_num)
  have hds : 86400 * (t / 1000 / 86400) + (t / 1000) % 86400 = t / 1000 :=
    Int.ediv_add_emod (t / 1000) 86400
  have hsod0 : 0 ≤ (t / 1000) % 86400 := Int.emod_nonneg _ (by norm_num)
  have hsodl : (t / 1000) % 86400 < 86400 := Int.emod_lt_of_pos _ (by norm_num)
  have heps : (epochShift : Int) = 719162 := rfl
  have h1 : daysBeforeYear 1 = 0 := rfl
  obtain ⟨rd, hrd⟩ : ∃ n : Nat, (n : Int) = t / 1000 / 86400 + (epochShift : Int) :=
    ⟨(t / 1000 / 86400 + (epochShift : Int)).toNat, Int.toNat_of_nonneg (by omega)⟩
  obtain ⟨sodn, hsodn⟩ : ∃ n : Nat, (n : Int) = (t / 1000) % 86400 :=
    ⟨((t / 1000) % 86400).toNat, Int.toNat_of_nonneg hsod0⟩
  have hrdle : rd ≤ 3652058 := by omega
  have hsodle : sodn ≤ 86399 := by omega
  rcases hyd : yearDoy rd with ⟨y, doy⟩
  have hydc := hyd
  unfold yearDoy at hydc
  have hspec := yearDoyAux_spec 10000 1 rd (by norm_num) (by
    have h2 : (1 : Nat) + 10000 = 10001 := by norm_num
    rw [h2, daysBeforeYear_10001, h1]
    omega)
  rw [hydc] at hspec
  dsimp only at hspec
  obtain ⟨hy1, -, hsum, hdoy⟩ := hspec
  rw [h1] at hsum
  have hy9999 : y ≤ 9999 := by
    by_contra hc
    push_neg at hc
    have hmono := daysBeforeYear_mono (show 10000 ≤ y by omega)
    rw [daysBeforeYear_10000] at hmono
    omega
  rcases hmd : monthFromDoy (monthLengths (isLeap y)) 1 doy with ⟨m, d⟩
  obtain ⟨i, dd, hmeq, hi, hd1, hd2, hsum2⟩ :=
    monthFromDoy_spec (monthLengths (isLeap y)) 1 doy (by rw [monthLengths_sum]; exact hdoy)
  rw [hmd] at hmeq
  injection hmeq with hm hdd
  subst hm
  subst hdd
  have hlen : (monthLengths (isLeap y)).length = 12 := rfl
  have hi12 : i < 12 := by rw [hlen] at hi; exact hi
  have hd31 : d ≤ 31 := le_trans hd2 (monthLengths_le _ i)
  have hdim : daysInMonth y (1 + i) = (monthLengths (isLeap y)).getD i 0 := by
    unfold daysInMonth
    have hmm : 1 + i - 1 = i := by omega
    rw [hmm]
  have hciv : civilFromDays rd = (y, 1 + i, d) := by
    simp only [civilFromDays]
    rw [hyd]
    dsimp only
    rw [hmd]
  have hconv : convert_timestamp t = String.mk
      (pad4 y ++ '-' :: pad2 (1 + i) ++ '-' :: pad2 d ++ ' ' ::
        pad2 (sodn / 3600) ++ ':' :: pad2 (sodn % 3600 / 60) ++ ':' :: pad2 (sodn % 60)) := by
    simp only [convert_timestamp]
    have h2 : (t / 1000 / 86400 + (epochShift : Int)).toNat = rd := by omega
    have h3 : ((t / 1000) % 86400).toNat = sodn := by omega
    rw [h2, h3, hciv]
  rw [hconv]
  simp only [parse_datetime, mk_data, pad4, pad2, List.cons_append, List.nil_append]
  simp only [parseChars]
  rw [if_pos (by simp [digitChar_isDigit])]
  rw [pad4_val hy9999, pad2_val (show 1 + i ≤ 99 by omega), pad2_val (show d ≤ 99 by omega),
    pad2_val (show sodn / 3600 ≤ 99 by omega), pad2_val (show sodn % 3600 / 60 ≤ 99 by omega),
    pad2_val (show sodn % 60 ≤ 99 by omega)]
  rw [if_pos ⟨by omega, by omega, by omega, hd1, by rw [hdim]; exact hd2, by omega, by omega,
    by omega⟩]
  have hdfc : daysFromCivil y (1 + i) d = rd := by
    unfold daysFromCivil daysBeforeMonth
    have hmm : 1 + i - 1 = i := by omega
    rw [hmm]
    omega
  rw [hdfc]
  congr 1
  omega

/-! ## Merge-store lemmas -/

lemma lastMatch_cons_eq (x : Record) (xs : List Record) (k : String) :
    lastMatch (x :: xs) k =
      match lastMatch xs k with
      | some z => some z
      | none => if x.startTime == k then some x else none := rfl

lemma insKeys_cons (k : String) (rest ks : List String) :
    insKeys (k :: rest) ks = insKeys rest (if k ∈ ks then ks else ks ++ [k]) := rfl

lemma upsert_keys (l : List Record) (r : Record) :
    (upsert l r).map Record.startTime =
      if r.startTime ∈ l.map Record.startTime then l.map Record.startTime
      else l.map Record.startTime ++ [r.startTime] := by
  induction l with
  | nil => simp [upsert]
  | cons x xs ih =>
    simp only [upsert, List.map_cons]
    by_cases hx : x.startTime = r.startTime
    · rw [if_pos (by simpa using hx), hx]
      simp
    · rw [if_neg (by simpa using hx), List.map_cons, ih]
      by_cases hr : r.startTime ∈ xs.map Record.startTime
      · simp [hr]
      · simp [hr, Ne.symm hx]

lemma keys_nodup_upsert {l : List Record} (r : Record)
    (h : (l.map Record.startTime).Nodup) :
    ((upsert l r).map Record.startTime).Nodup := by
  rw [upsert_keys]
  split
  · exact h
  · next hnot => simp [List.nodup_append, h, hnot]

lemma lookupKey_upsert (l : List Record) (r : Record) (k : String) :
    lookupKey (upsert l r) k = if r.startTime = k then some r else lookupKey l k := by
  induction l with
  | nil =>
    simp only [upsert, lookupKey]
    by_cases hk : r.startTime = k
    · rw [if_pos (by simpa using hk), if_pos hk]
    · rw [if_neg (by simpa using hk), if_neg hk]
  | cons x xs ih =>
    simp only [upsert]
    by_cases hx : x.startTime = r.startTime
    · rw [if_pos (by simpa using hx)]
      simp only [lookupKey]
      by_cases hk : r.startTime = k
      · rw [if_pos (by simpa using hk), if_pos hk]
      · rw [if_neg (by simpa using hk), if_neg hk,
          if_neg (show ¬(x.startTime == k) = true by simp [hx, hk])]
    · rw [if_neg (by simpa using hx)]
      simp only [lookupKey, ih]
      by_cases hxk : x.startTime = k
      · rw [if_pos (by simpa using hxk), if_neg (show r.startTime ≠ k from hxk ▸ Ne.symm hx),
          if_pos (by simpa using hxk)]
      · rw [if_neg (by simpa using hxk)]
        by_cases hrk : r.startTime = k
        · rw [if_pos hrk, if_pos hrk]
        · rw [if_neg hrk, if_neg hrk, if_neg (by simpa using hxk)]

lemma lookupKey_mem : ∀ (l : List Record) (k : String) (r : Record),
    lookupKey l k = some r → r ∈ l := by
  intro l
  induction l with
  | nil => intro k r h; simp [lookupKey] at h
  | cons x xs ih =>
    intro k r h
    simp only [lookupKey] at h
    by_cases hx : (x.startTime == k) = true
    · rw [if_pos hx] at h
      injection h with h
      exact h ▸ List.mem_cons_self x xs
    · rw [if_neg hx] at h
      exact List.mem_cons_of_mem x (ih k r h)

lemma lookupKey_foldl (xs : List Record) : ∀ (acc : List Record) (k : String),
    lookupKey (xs.foldl upsert acc) k = optOr (lastMatch xs k) (lookupKey acc k) := by
  induction xs with
  | nil => intro acc k; simp [lastMatch, optOr]
  | cons x xs ih =>
    intro acc k
    rw [List.foldl_cons, ih, lookupKey_upsert, lastMatch_cons_eq]
    cases hlm : lastMatch xs k with
    | some z => rfl
    | none =>
      by_cases hk : x.startTime = k
      · rw [if_pos hk, if_pos (by simpa using hk)]
        rfl
      · rw [if_neg hk, if_neg (by simpa using hk)]

lemma lookupKey_mergeDict (e inc : List Record) (k : String) :
    lookupKey (mergeDict e inc) k = optOr (lastMatch inc k) (lookupKey (toDict e) k) :=
  lookupKey_foldl inc (toDict e) k

lemma keys_foldl (xs : List Record) : ∀ (acc : List Record),
    (xs.foldl upsert acc).map Record.startTime =
      insKeys (xs.map Record.startTime) (acc.map Record.startTime) := by
  induction xs with
  | nil => intro acc; rfl
  | cons x xs ih =>
    intro acc
    rw [List.foldl_cons, ih, List.map_cons, insKeys_cons, upsert_keys]

lemma insKeys_append : ∀ (a b ks : List String), insKeys (a ++ b) ks = insKeys b (insKeys a ks) := by
  intro a
  induction a with
  | nil => intro b ks; rfl
  | cons k rest ih =>
    intro b ks
    rw [List.cons_append, insKeys_cons, insKeys_cons, ih]

lemma keys_nodup_insKeys : ∀ (a ks : List String), ks.Nodup → (insKeys a ks).Nodup := by
  intro a
  induction a with
  | nil => intro ks h; exact h
  | cons k rest ih =>
    intro ks h
    unfold insKeys
    by_cases hk : k ∈ ks
    · rw [if_pos hk]; exact ih ks h
    · rw [if_neg hk]; exact ih _ (by simp [List.nodup_append, h, hk])

lemma keys_nodup_toDict (l : List Record) : ((toDict l).map Record.startTime).Nodup := by
  unfold toDict
  rw [keys_foldl]
  exact keys_nodup_insKeys _ _ (by simp)

lemma keys_nodup_mergeDict (e inc : List Record) :
    ((mergeDict e inc).map Record.startTime).Nodup := by
  unfold mergeDict
  rw [keys_foldl]
  exact keys_nodup_insKeys _ _ (keys_nodup_toDict e)

lemma lastMatch_key : ∀ (xs : List Record) (k : String) (r : Record),
    lastMatch xs k = some r → r.startTime = k := by
  intro xs
  induction xs with
  | nil => intro k r h; simp [lastMatch] at h
  | cons x xs ih =>
    intro k r h
    unfold lastMatch at h
    cases hlm : lastMatch xs k with
    | some z =>
      rw [hlm] at h
      injection h with h
      exact h ▸ ih k z hlm
    | none =>
      rw [hlm] at h
      by_cases hk : (x.startTime == k) = true
      · rw [if_pos hk] at h
        injection h with h
        rw [← h]
        simpa using hk
      · rw [if_neg hk] at h
        exact absurd h (by simp)

lemma lastMatch_mem : ∀ (xs : List Record) (k : String) (r : Record),
    lastMatch xs k = some r → r ∈ xs := by
  intro xs
  induction xs with
  | nil => intro k r h; simp [lastMatch] at h
  | cons x xs ih =>
    intro k r h
    unfold lastMatch at h
    cases hlm : lastMatch xs k with
    | some z =>
      rw [hlm] at h
      injection h with h
      exact List.mem_cons_of_mem x (h ▸ ih k z hlm)
    | none =>
      rw [hlm] at h
      by_cases hk : (x.startTime == k) = true
      · rw [if_pos hk] at h
        injection h with h
        exact h ▸ List.mem_cons_self x xs
      · rw [if_neg hk] at h
        exact absurd h (by simp)

lemma lastMatch_none : ∀ (xs : List Record) (k : String),
    k ∉ xs.map Record.startTime → lastMatch xs k = none := by
  intro xs
  induction xs with
  | nil => intro k _; rfl
  | cons x xs ih =>
    intro k hk
    rw [List.map_cons, List.mem_cons] at hk
    push_neg at hk
    unfold lastMatch
    rw [ih k hk.2, if_neg (by simpa using fun hc : x.startTime = k => hk.1 hc.symm)]

lemma lastMatch_cons_ne (x : Record) (xs : List Record) (k : String)
    (h : x.startTime ≠ k) : lastMatch (x :: xs) k = lastMatch xs k := by
  rw [lastMatch_cons_eq]
  cases hlm : lastMatch xs k with
  | some z => rfl
  | none =>
    show (if (x.startTime == k) = true then some x else none) = none
    rw [if_neg (by simpa using h)]

lemma lastMatch_of_mem_nodup : ∀ (xs : List Record),
    (xs.map Record.startTime).Nodup → ∀ r ∈ xs, lastMatch xs r.startTime = some r := by
  intro xs
  induction xs with
  | nil => intro _ r hr; simp at hr
  | cons x xs ih =>
    intro hnd r hr
    rw [List.map_cons, List.nodup_cons] at hnd
    rcases List.mem_cons.mp hr with rfl | htail
    · unfold lastMatch
      rw [lastMatch_none xs r.startTime hnd.1]
      simp
    · unfold lastMatch
      rw [ih hnd.2 r htail]

lemma newRecs_cons (x : Record) (xs : List Record) (ks : List String) :
    newRecs (x :: xs) ks =
      if x.startTime ∈ ks then newRecs xs ks
      else (lastMatch xs x.startTime).getD x :: newRecs xs (ks ++ [x.startTime]) := rfl

lemma upsert_not_mem {l : List Record} {x : Record}
    (h : x.startTime ∉ l.map Record.startTime) : upsert l x = l ++ [x] := by
  induction l with
  | nil => rfl
  | cons a as ih =>
    rw [List.map_cons, List.mem_cons] at h
    push_neg at h
    show (if (a.startTime == x.startTime) = true then x :: as else a :: upsert as x) = _
    rw [if_neg (by simpa using fun hc : a.startTime = x.startTime => h.1 hc.symm), ih h.2,
      List.cons_append]

lemma upsert_mem : ∀ {l : List Record} {x : Record},
    (l.map Record.startTime).Nodup → x.startTime ∈ l.map Record.startTime →
    upsert l x = l.map fun e => if e.startTime == x.startTime then x else e := by
  intro l
  induction l with
  | nil => intro x _ h; simp at h
  | cons a as ih =>
    intro x hnd h
    rw [List.map_cons, List.nodup_cons] at hnd
    rw [List.map_cons, List.mem_cons] at h
    show (if (a.startTime == x.startTime) = true then x :: as else a :: upsert as x) = _
    by_cases ha : a.startTime = x.startTime
    · rw [if_pos (by simpa using ha), List.map_cons, if_pos (by simpa using ha)]
      congr 1
      have hmap : ∀ e ∈ as, (if e.startTime == x.startTime then x else e) = e := by
        intro e he
        rw [if_neg]
        simp only [beq_iff_eq]
        intro hc
        exact hnd.1 (by rw [ha, ← hc]; exact List.mem_map_of_mem _ he)
      conv_lhs => rw [← List.map_id as]
      exact List.map_congr_left fun e he => (hmap e he).symm
    · have hm : x.startTime ∈ as.map Record.startTime :=
        h.resolve_left fun hc => ha hc.symm
      rw [if_neg (by simpa using ha), ih hnd.2 hm, List.map_cons, if_neg (by simpa using ha)]

lemma foldl_upsert_char (xs : List Record) : ∀ (acc : List Record),
    (acc.map Record.startTime).Nodup →
    xs.foldl upsert acc =
      acc.map (fun r => (lastMatch xs r.startTime).getD r) ++
        newRecs xs (acc.map Record.startTime) := by
  induction xs with
  | nil =>
    intro acc _
    show acc = _
    rw [show newRecs [] (acc.map Record.startTime) = [] from rfl, List.append_nil]
    conv_lhs => rw [← List.map_id acc]
    exact List.map_congr_left fun a _ => rfl
  | cons x xs ih =>
    intro acc hnd
    rw [List.foldl_cons]
    by_cases hx : x.startTime ∈ acc.map Record.startTime
    · rw [upsert_mem hnd hx]
      have hkeys : ((acc.map fun e => if e.startTime == x.startTime then x else e).map
          Record.startTime) = acc.map Record.startTime := by
        rw [List.map_map]
        apply List.map_congr_left
        intro a _
        by_cases h : a.startTime = x.startTime <;> simp [Function.comp, h]
      rw [ih _ (by rw [hkeys]; exact hnd), hkeys, newRecs_cons, if_pos hx]
      have hfirst : ((acc.map fun e => if e.startTime == x.startTime then x else e).map
          fun r => (lastMatch xs r.startTime).getD r) =
          acc.map fun r => (lastMatch (x :: xs) r.startTime).getD r := by
        rw [List.map_map]
        apply List.map_congr_left
        intro a _
        simp only [Function.comp]
        by_cases hak : a.startTime = x.startTime
        · rw [if_pos (by simpa using hak), hak, lastMatch_cons_eq]
          cases hlm : lastMatch xs x.startTime with
          | some z => rfl
          | none => simp
        · rw [if_neg (by simpa using hak),
            lastMatch_cons_ne x xs a.startTime fun hc => hak hc.symm]
      rw [hfirst]
    · rw [upsert_not_mem hx]
      have hnd2 : ((acc ++ [x]).map Record.startTime).Nodup := by
        rw [List.map_append]
        simp [List.nodup_append, hnd, hx]
      rw [ih _ hnd2, List.map_append, List.map_append, newRecs_cons, if_neg hx,
        List.append_assoc]
      have hfirst : (acc.map fun r => (lastMatch xs r.startTime).getD r) =
          acc.map fun r => (lastMatch (x :: xs) r.startTime).getD r := by
        apply List.map_congr_left
        intro a ha
        rw [lastMatch_cons_ne x xs a.startTime
          fun hc => hx (by rw [hc]; exact List.mem_map_of_mem _ ha)]
      rw [hfirst]
      rfl

lemma newRecs_mem : ∀ (xs : List Record) (ks : List String) (r : Record),
    r ∈ newRecs xs ks → r.startTime ∉ ks ∧ lastMatch xs r.startTime = some r := by
  intro xs
  induction xs with
  | nil => intro ks r h; simp [newRecs] at h
  | cons x xs ih =>
    intro ks r hr
    rw [newRecs_cons] at hr
    by_cases hx : x.startTime ∈ ks
    · rw [if_pos hx] at hr
      obtain ⟨h1, h2⟩ := ih ks r hr
      refine ⟨h1, ?_⟩
      rw [lastMatch_cons_ne x xs r.startTime fun hc => h1 (hc ▸ hx), h2]
    · rw [if_neg hx] at hr
      rcases List.mem_cons.mp hr with heq | htail
      · subst heq
        cases hlm : lastMatch xs x.startTime with
        | some z =>
          have hzk : z.startTime = x.startTime := lastMatch_key xs _ z hlm
          simp only [Option.getD_some]
          refine ⟨by rw [hzk]; exact hx, ?_⟩
          rw [hzk, lastMatch_cons_eq, hlm]
        | none =>
          simp only [Option.getD_none]
          refine ⟨hx, ?_⟩
          rw [lastMatch_cons_eq, hlm]
          show (if (x.startTime == x.startTime) = true then some x else none) = some x
          rw [if_pos (by simp)]
      · obtain ⟨h1, h2⟩ := ih (ks ++ [x.startTime]) r htail
        rw [List.mem_append, List.mem_singleton] at h1
        push_neg at h1
        refine ⟨h1.1, ?_⟩
        rw [lastMatch_cons_ne x xs r.startTime fun hc => h1.2 hc.symm, h2]

lemma newRecs_id : ∀ (xs : List Record) (ks : List String),
    (xs.map Record.startTime).Nodup →
    (∀ k ∈ ks, k ∉ xs.map Record.startTime) →
    newRecs xs ks = xs := by
  intro xs
  induction xs with
  | nil => intro ks _ _; rfl
  | cons x xs ih =>
    intro ks hnd hdis
    rw [List.map_cons, List.nodup_cons] at hnd
    rw [newRecs_cons, if_neg fun hc => hdis _ hc (by simp)]
    rw [lastMatch_none xs x.startTime hnd.1]
    show x :: newRecs xs (ks ++ [x.startTime]) = x :: xs
    congr 1
    apply ih _ hnd.2
    intro k hk
    rcases List.mem_append.mp hk with hks | hx
    · intro hc
      exact hdis k hks (by rw [List.map_cons]; exact List.mem_cons_of_mem _ hc)
    · rw [List.mem_singleton] at hx
      subst hx
      exact hnd.1

lemma toDict_self (l : List Record) (h : (l.map Record.startTime).Nodup) : toDict l = l := by
  unfold toDict
  rw [foldl_upsert_char l [] (by simp)]
  show [] ++ newRecs l ([].map Record.startTime) = l
  rw [List.nil_append]
  exact newRecs_id l _ h (by simp)

lemma foldl_upsert_fix (xs : List Record) (acc : List Record)
    (hnd : (acc.map Record.startTime).Nodup) :
    ∀ r ∈ xs.foldl upsert acc, (lastMatch xs r.startTime).getD r = r := by
  intro r hr
  rw [foldl_upsert_char xs acc hnd] at hr
  rcases List.mem_append.mp hr with hmap | hnew
  · obtain ⟨a, _, rfl⟩ := List.mem_map.mp hmap
    cases hlm : lastMatch xs a.startTime with
    | none => simp [hlm]
    | some z =>
      have hzk : z.startTime = a.startTime := lastMatch_key xs _ z hlm
      simp [hlm, hzk]
  · rw [(newRecs_mem xs _ r hnew).2]
    rfl

lemma pruneFilter_cons (cutoff : Int) (r : Record) (rs : List Record) :
    pruneFilter cutoff (r :: rs) =
      match parse_datetime r.startTime with
      | none => none
      | some t =>
        match pruneFilter cutoff rs with
        | none => none
        | some l => some (if cutoff ≤ t then r :: l else l) := rfl

lemma pruneFilter_eq_filter (cutoff : Int) : ∀ (xs l : List Record),
    pruneFilter cutoff xs = some l → l = xs.filter (keepB cutoff) := by
  intro xs
  induction xs with
  | nil =>
    intro l h
    simp only [pruneFilter] at h
    injection h with h
    rw [← h]
    rfl
  | cons r rs ih =>
    intro l h
    rw [pruneFilter_cons] at h
    cases hp : parse_datetime r.startTime with
    | none => rw [hp] at h; exact absurd h (by simp)
    | some t =>
      rw [hp] at h
      cases hrec : pruneFilter cutoff rs with
      | none => rw [hrec] at h; exact absurd h (by simp)
      | some l2 =>
        rw [hrec] at h
        injection h with h
        subst h
        rw [ih l2 hrec, List.filter_cons]
        unfold keepB
        rw [hp]
        by_cases hc : cutoff ≤ t
        · rw [if_pos hc, if_pos (by simpa using hc)]
        · rw [if_neg hc, if_neg (by simpa using hc)]

lemma pruneFilter_parse (cutoff : Int) : ∀ (xs l : List Record),
    pruneFilter cutoff xs = some l → ∀ r ∈ xs, (parse_datetime r.startTime).isSome := by
  intro xs
  induction xs with
  | nil => intro l _ r hr; simp at hr
  | cons a rs ih =>
    intro l h r hr
    rw [pruneFilter_cons] at h
    cases hp : parse_datetime a.startTime with
    | none => rw [hp] at h; exact absurd h (by simp)
    | some t =>
      rw [hp] at h
      cases hrec : pruneFilter cutoff rs with
      | none => rw [hrec] at h; exact absurd h (by simp)
      | some l2 =>
        rcases List.mem_cons.mp hr with rfl | htail
        · rw [hp]; rfl
        · exact ih l2 hrec r htail

lemma pruneFilter_of_parse (cutoff : Int) : ∀ (xs : List Record),
    (∀ r ∈ xs, (parse_datetime r.startTime).isSome) →
    pruneFilter cutoff xs = some (xs.filter (keepB cutoff)) := by
  intro xs
  induction xs with
  | nil => intro _; rfl
  | cons a rs ih =>
    intro h
    have ha := h a (List.mem_cons_self a rs)
    obtain ⟨t, ht⟩ := Option.isSome_iff_exists.mp ha
    rw [pruneFilter_cons, ht, ih fun r hr => h r (List.mem_cons_of_mem a hr),
      List.filter_cons]
    unfold keepB
    rw [ht]
    dsimp only
    by_cases hc : cutoff ≤ t
    · rw [if_pos hc, if_pos (by simpa using hc)]
    · rw [if_neg hc, if_neg (by simpa using hc)]

/-! ## Sample records for concrete instances (year-1 dates keep evaluation cheap:
`parse_datetime "0001-01-01 00:00:00" = some (-62135596800)`). -/

def recOld : Record := { startTime := "0001-01-01 00:00:00", total := 5, price := 0 }

def recNew : Record := { startTime := "0001-01-01 00:00:00", total := 7, price := 0 }

def recDay2 : Record := { startTime := "0001-01-02 00:00:00", total := 3, price := 0 }

def recDay3 : Record := { startTime := "0001-01-03 00:00:00", total := 4, price := 0 }

def recBad : Record := { startTime := "garbage", total := 0, price := 0 }

/-! ## Claims -/

/-- C1: whenever `save_to_json` writes output, the merge-and-prune removes
exactly the entries whose timestamp is strictly earlier than
`now - retention_days` days: every written record has a parseable timestamp
at or after the cutoff, every merged record with timestamp at or after the
cutoff is written, and only merged records are written. -/
theorem retention_exact (file : SnapshotFile) (data : List Record) (now : Int)
    (retainDays : Nat) (l : List Record)
    (h : save_to_json file data now retainDays = some l) :
    (∀ r ∈ l, ∃ ts, parse_datetime r.startTime = some ts ∧
      now - (retainDays : Int) * 86400 ≤ ts) ∧
    (∀ r ∈ mergeDict (loadSnapshot file) data, ∀ ts,
      parse_datetime r.startTime = some ts →
      now - (retainDays : Int) * 86400 ≤ ts → r ∈ l) ∧
    (∀ r ∈ l, r ∈ mergeDict (loadSnapshot file) data) := by
  have hleq := pruneFilter_eq_filter _ _ _ h
  refine ⟨?_, ?_, ?_⟩
  · intro r hr
    rw [hleq] at hr
    have hk := (List.mem_filter.mp hr).2
    unfold keepB at hk
    cases hp : parse_datetime r.startTime with
    | none => rw [hp] at hk; exact absurd hk (by simp)
    | some ts => rw [hp] at hk; exact ⟨ts, rfl, by simpa using hk⟩
  · intro r hr ts hts hcut
    rw [hleq]
    refine List.mem_filter.mpr ⟨hr, ?_⟩
    unfold keepB
    rw [hts]
    simpa using hcut
  · intro r hr
    rw [hleq] at hr
    exact (List.mem_filter.mp hr).1

/-- Witness for C1: a one-day retention window prunes the year-1 day-1 record
and keeps the day-3 record. -/
theorem retention_exact_witness :
    save_to_json (SnapshotFile.good [recOld]) [recDay3] (-62135424000) 1 = some [recDay3] ∧
    recDay3 ∈ [recDay3] :=
  ⟨by decide, (retention_exact (SnapshotFile.good [recOld]) [recDay3] (-62135424000) 1
    [recDay3] (by decide)).2.1 recDay3 (by decide) (-62135424000) (by decide) (by decide)⟩

/-- C2: merging is last-write-wins by timestamp key: after the merge, the
record stored at a key is the last incoming record carrying that key (in
processing order), regardless of the existing record there. -/
theorem merge_last_write_wins (e inc : List Record) (T : String) (r : Record)
    (h : lastMatch inc T = some r) :
    lookupKey (mergeDict e inc) T = some r := by
  rw [lookupKey_mergeDict, h]
  rfl

/-- Witness for C2: existing total 5 at `T`, incoming totals 5 then 7 at `T`;
the merged map holds the final incoming record with total 7. -/
theorem merge_last_write_wins_witness :
    lastMatch [recOld, recNew] "0001-01-01 00:00:00" = some recNew ∧
    lookupKey (mergeDict [recOld] [recOld, recNew]) "0001-01-01 00:00:00" = some recNew :=
  ⟨by decide, merge_last_write_wins [recOld] [recOld, recNew] _ recNew (by decide)⟩

/-- C3: merge-and-prune is idempotent: if a run over `existing` with batch
`incoming` writes `l`, then a second run over `l` with the same batch, cutoff
and now writes `l` again. -/
theorem merge_idempotent (e inc : List Record) (now : Int) (retainDays : Nat)
    (l : List Record)
    (h : save_to_json (SnapshotFile.good e) inc now retainDays = some l) :
    save_to_json (SnapshotFile.good l) inc now retainDays = some l := by
  have hparse := pruneFilter_parse _ _ _ h
  have hleq := pruneFilter_eq_filter _ _ _ h
  have hndl : (l.map Record.startTime).Nodup := by
    rw [hleq]
    exact List.Nodup.sublist (List.Sublist.map _ (List.filter_sublist _))
      (keys_nodup_mergeDict e inc)
  have hsubl : ∀ r ∈ l, r ∈ mergeDict e inc := by
    intro r hr
    rw [hleq] at hr
    exact (List.mem_filter.mp hr).1
  have hfixA : ∀ r ∈ mergeDict e inc, (lastMatch inc r.startTime).getD r = r := fun r hr =>
    foldl_upsert_fix inc (toDict e) (keys_nodup_toDict e) r hr
  have htd : toDict l = l := toDict_self l hndl
  have hB : mergeDict l inc = l.map (fun r => (lastMatch inc r.startTime).getD r) ++
      newRecs inc (l.map Record.startTime) := by
    show inc.foldl upsert (toDict l) = _
    rw [htd]
    exact foldl_upsert_char inc l hndl
  have hmapl : l.map (fun r => (lastMatch inc r.startTime).getD r) = l := by
    conv_rhs => rw [← List.map_id l]
    exact List.map_congr_left fun r hr => hfixA r (hsubl r hr)
  have hnewmem : ∀ r ∈ newRecs inc (l.map Record.startTime),
      r ∈ mergeDict e inc ∧ keepB (now - (retainDays : Int) * 86400) r = false := by
    intro r hr
    obtain ⟨hnotin, hlm⟩ := newRecs_mem inc _ r hr
    have hmem : r ∈ mergeDict e inc := by
      have hl := lookupKey_mergeDict e inc r.startTime
      rw [hlm] at hl
      exact lookupKey_mem _ _ _ hl
    refine ⟨hmem, ?_⟩
    cases hkb : keepB (now - (retainDays : Int) * 86400) r with
    | false => rfl
    | true =>
      exfalso
      apply hnotin
      have hrl : r ∈ l := by
        rw [hleq]
        exact List.mem_filter.mpr ⟨hmem, hkb⟩
      exact List.mem_map_of_mem _ hrl
  show pruneFilter _ (mergeDict l inc) = _
  rw [hB, hmapl]
  have hparse2 : ∀ r ∈ l ++ newRecs inc (l.map Record.startTime),
      (parse_datetime r.startTime).isSome := by
    intro r hr
    rcases List.mem_append.mp hr with h1 | h2
    · exact hparse r (hsubl r h1)
    · exact hparse r (hnewmem r h2).1
  rw [pruneFilter_of_parse _ _ hparse2, List.filter_append]
  have h1 : l.filter (keepB (now - (retainDays : Int) * 86400)) = l := by
    rw [List.filter_eq_self]
    intro r hr
    rw [hleq] at hr
    exact (List.mem_filter.mp hr).2
  have h2 : (newRecs inc (l.map Record.startTime)).filter
      (keepB (now - (retainDays : Int) * 86400)) = [] := by
    rw [List.filter_eq_nil_iff]
    intro r hr
    simp [(hnewmem r hr).2]
  rw [h1, h2, List.append_nil]

/-- Witness for C3 at a concrete run. -/
theorem merge_idempotent_witness :
    save_to_json (SnapshotFile.good []) [recOld] (-62135596800) 0 = some [recOld] ∧
    save_to_json (SnapshotFile.good [recOld]) [recOld] (-62135596800) 0 = some [recOld] :=
  ⟨by decide, merge_idempotent [] [recOld] (-62135596800) 0 [recOld] (by decide)⟩

/-- C4 counterexample: with the incoming batch in descending timestamp order,
the list written by `save_to_json` is not sorted ascending by timestamp (the
code never sorts; it emits dict insertion order). -/
theorem emit_not_sorted :
    save_to_json SnapshotFile.missing [recDay2, recOld] (-62135596800) 0 =
      some [recDay2, recOld] ∧
    ¬ sortedByTs [recDay2, recOld] := by
  refine ⟨by decide, ?_⟩
  intro hs
  obtain ⟨ta, tb, hta, htb, hle⟩ := (List.chain'_cons.mp hs).1
  have h2 : tsOf recDay2 = some (-62135510400) := by decide
  have h1 : tsOf recOld = some (-62135596800) := by decide
  rw [h2] at hta
  rw [h1] at htb
  injection hta with hta
  injection htb with htb
  omega

/-- C4 amended: the emitted list is a subsequence of the merged dict, whose
key sequence is first-insertion order — existing snapshot order followed by
first occurrences of new incoming keys — not ascending timestamp order in
general. -/
theorem merge_emit_order (e inc : List Record) (now : Int) (retainDays : Nat)
    (l : List Record)
    (h : save_to_json (SnapshotFile.good e) inc now retainDays = some l) :
    l.Sublist (mergeDict e inc) ∧
    (mergeDict e inc).map Record.startTime =
      insKeys ((e ++ inc).map Record.startTime) [] := by
  constructor
  · rw [pruneFilter_eq_filter _ _ _ h]
    exact List.filter_sublist _
  · show (inc.foldl upsert (toDict e)).map Record.startTime = _
    rw [keys_foldl]
    show insKeys _ ((e.foldl upsert []).map Record.startTime) = _
    rw [keys_foldl, List.map_append, insKeys_append]
    simp only [List.map_nil]

/-- Witness for C4's amended statement. -/
theorem merge_emit_order_witness :
    save_to_json (SnapshotFile.good [recOld]) [recDay2] (-62135596800) 0 =
      some [recOld, recDay2] ∧
    [recOld, recDay2].Sublist (mergeDict [recOld] [recDay2]) :=
  ⟨by decide, (merge_emit_order [recOld] [recDay2] (-62135596800) 0 [recOld, recDay2]
    (by decide)).1⟩

/-- C5, behaviour at the failing input: one record with an unparseable
`'Start Time'` makes `parse_datetime` return `None`, and the filter's
comparison `None >= cutoff` raises `TypeError`, aborting `save_to_json`
with nothing written — even though a later parseable record is present.
The claim (and `parse_datetime`'s own `None` convention) expects the record
to be dropped and the rest to survive. -/
theorem unparseable_aborts :
    parse_datetime "garbage" = none ∧
    save_to_json (SnapshotFile.good [recBad, recOld]) [] (-62135596800) 0 = none :=
  ⟨by decide, by decide⟩

/-- C6 counterexample: a negative unit price raises nothing — `process_data`
completes normally and emits the computed negative price (there is no
`InvalidPriceError` anywhere in the code). -/
theorem negative_unit_price_accepted :
    process_data [⟨[⟨[⟨some (-62135596800000), some 10⟩]⟩]⟩] (-(3/20)) =
      [{ startTime := "0001-01-01 00:00:00", total := 10, price := -(3/2) }] := by
  have hs : convert_timestamp (-62135596800000) = "0001-01-01 00:00:00" := by decide
  simp [process_data, allReads, processRead, hs]
  norm_num

/-- C6 amended: the price annotator computes `price = total * unit_price` for
every record, with a missing total defaulting to `0.0`; it never raises — a
negative or non-finite unit price is used as-is, one output row per read. -/
theorem price_annotator_total (data : List RawItem) (p : ℚ) :
    (process_data data p).length = (allReads data).length ∧
    ∀ r ∈ process_data data p, r.price = r.total * p := by
  refine ⟨by simp [process_data], ?_⟩
  intro r hr
  obtain ⟨rd, -, rfl⟩ := List.mem_map.mp hr
  rfl

/-- Witness for C6's amended statement: `total = 10.0`, `unit_price = 0.15`
gives `price = 1.5`. -/
theorem price_annotator_total_witness :
    ({ startTime := "0001-01-01 00:00:00", total := 10, price := 3/2 } : Record) ∈
      process_data [⟨[⟨[⟨some (-62135596800000), some 10⟩]⟩]⟩] (3/20) ∧
    ({ startTime := "0001-01-01 00:00:00", total := 10, price := 3/2 } : Record).price =
      ({ startTime := "0001-01-01 00:00:00", total := 10, price := 3/2 } : Record).total *
        (3/20) := by
  have hs : convert_timestamp (-62135596800000) = "0001-01-01 00:00:00" := by decide
  have hmem : ({ startTime := "0001-01-01 00:00:00", total := 10, price := 3/2 } : Record) ∈
      process_data [⟨[⟨[⟨some (-62135596800000), some 10⟩]⟩]⟩] (3/20) := by
    simp [process_data, allReads, processRead, hs]
    norm_num
  exact ⟨hmem, (price_annotator_total [⟨[⟨[⟨some (-62135596800000), some 10⟩]⟩]⟩]
    (3/20)).2 _ hmem⟩

/-- C7: a missing prior snapshot (`FileNotFoundError`) or one that is not
valid JSON (`JSONDecodeError`) degrades to existing = empty: the written
output is exactly the incoming batch merged into an empty map and pruned by
the retention cutoff, identically to running against an empty snapshot. -/
theorem corrupt_snapshot_fresh_start (inc : List Record) (now : Int) (retainDays : Nat) :
    save_to_json SnapshotFile.missing inc now retainDays =
      pruneFilter (now - (retainDays : Int) * 86400) (mergeDict [] inc) ∧
    save_to_json SnapshotFile.corrupt inc now retainDays =
      pruneFilter (now - (retainDays : Int) * 86400) (mergeDict [] inc) ∧
    save_to_json SnapshotFile.missing inc now retainDays =
      save_to_json (SnapshotFile.good []) inc now retainDays ∧
    save_to_json SnapshotFile.corrupt inc now retainDays =
      save_to_json (SnapshotFile.good []) inc now retainDays :=
  ⟨rfl, rfl, rfl, rfl⟩

/-- C8 counterexample: permuting an incoming batch containing two records
with the same timestamp changes the merged map at that key (last write wins,
so order matters for duplicate keys). -/
theorem perm_changes_merged_map :
    List.Perm [recOld, recNew] [recNew, recOld] ∧
    lookupKey (mergeDict [] [recOld, recNew]) "0001-01-01 00:00:00" ≠
      lookupKey (mergeDict [] [recNew, recOld]) "0001-01-01 00:00:00" :=
  ⟨List.Perm.swap recNew recOld [], by decide⟩

/-- C8 amended: when the incoming batch has pairwise-distinct timestamp keys,
merging any permutation of it over any existing state yields the same
timestamp-keyed map. -/
theorem perm_same_merged_map (e inc inc2 : List Record) (hperm : inc.Perm inc2)
    (hnd : (inc.map Record.startTime).Nodup) (k : String) :
    lookupKey (mergeDict e inc) k = lookupKey (mergeDict e inc2) k := by
  rw [lookupKey_mergeDict, lookupKey_mergeDict]
  suffices hlm : lastMatch inc k = lastMatch inc2 k by rw [hlm]
  have hnd2 : (inc2.map Record.startTime).Nodup :=
    ((hperm.map Record.startTime).nodup_iff).mp hnd
  cases hcase : lastMatch inc k with
  | none =>
    have hk : k ∉ inc.map Record.startTime := by
      intro hmem
      obtain ⟨r, hr, hkey⟩ := List.mem_map.mp hmem
      have hsome := lastMatch_of_mem_nodup inc hnd r hr
      rw [hkey, hcase] at hsome
      exact absurd hsome (by simp)
    have hk2 : k ∉ inc2.map Record.startTime := fun hmem =>
      hk ((hperm.map Record.startTime).mem_iff.mpr hmem)
    rw [lastMatch_none inc2 k hk2]
  | some r =>
    have hkey := lastMatch_key inc k r hcase
    have hmem2 : r ∈ inc2 := hperm.mem_iff.mp (lastMatch_mem inc k r hcase)
    rw [← hkey]
    exact (lastMatch_of_mem_nodup inc2 hnd2 r hmem2).symm

/-- Witness for C8's amended statement. -/
theorem perm_same_merged_map_witness :
    List.Perm [recOld, recDay2] [recDay2, recOld] ∧
    ([recOld, recDay2].map Record.startTime).Nodup ∧
    lookupKey (mergeDict [] [recOld, recDay2]) "0001-01-01 00:00:00" =
      lookupKey (mergeDict [] [recDay2, recOld]) "0001-01-01 00:00:00" :=
  ⟨List.Perm.swap recDay2 recOld [], by decide,
    perm_same_merged_map [] [recOld, recDay2] [recDay2, recOld]
      (List.Perm.swap recDay2 recOld []) (by decide) _⟩

/-- C9: formatting and parsing round-trip: over `datetime`'s representable
range (years 1–9999), `parse_datetime (convert_timestamp t)` never returns
`none` and yields exactly `floor (t / 1000)` seconds — the instant truncated
to second precision. -/
theorem timestamp_round_trip (t : Int) (h1 : -62135596800000 ≤ t)
    (h2 : t ≤ 253402300799999) :
    parse_datetime (convert_timestamp t) = some (t / 1000) :=
  parse_convert t h1 h2

/-- Witness for C9 at a sub-second offset (truncation exercised). -/
theorem timestamp_round_trip_witness :
    (-62135596800000 : Int) ≤ -62135596799500 ∧
    (-62135596799500 : Int) ≤ 253402300799999 ∧
    parse_datetime (convert_timestamp (-62135596799500)) =
      some ((-62135596799500 : Int) / 1000) :=
  ⟨by norm_num, by norm_num,
    timestamp_round_trip (-62135596799500) (by norm_num) (by norm_num)⟩

/-- C10: whatever the prior snapshot contains — even duplicate
`'Start Time'` entries — the record list written by `save_to_json` has at
most one entry per `'Start Time'` value. -/
theorem output_keys_unique (file : SnapshotFile) (data : List Record) (now : Int)
    (retainDays : Nat) (l : List Record)
    (h : save_to_json file data now retainDays = some l) :
    (l.map Record.startTime).Nodup := by
  rw [pruneFilter_eq_filter _ _ _ h]
  exact List.Nodup.sublist (List.Sublist.map _ (List.filter_sublist _))
    (keys_nodup_mergeDict _ _)

/-- Witness for C10 on a snapshot with a duplicated key. -/
theorem output_keys_unique_witness :
    save_to_json (SnapshotFile.good [recOld, recNew]) [] (-62135596800) 0 = some [recNew] ∧
    ([recNew].map Record.startTime).Nodup :=
  ⟨by decide, output_keys_unique (SnapshotFile.good [recOld, recNew]) [] (-62135596800) 0
    [recNew] (by decide)⟩

end SmartHub
